import Mathlib

/-!
Shallow embedding of the Open-Hadith-Data server core
(`src/server/plugins/enhanced-data-loader.js`, `src/server/plugins/dataLoader.js`,
`src/server/routes/simple-auth-v2.js` search routes, `src/server/routes/stats.js`),
together with proofs about the claims on the loader, the search engine, the
advanced filter pipeline, the collection index and the statistics percentiles.

Strings are modelled as `List Char`; JavaScript's `toLowerCase`/`trim`/`includes`/
`indexOf`/`split(/\s+/)` are modelled character-by-character (the corpora are
Arabic/ASCII text, for which Lean's `Char.toLower`/`Char.isWhitespace` coincide
with the JavaScript behaviour on every code point the server manipulates, and the
regular-expression patterns built from user queries are treated as literal
strings, which is how the server uses them for plain search terms).
Numbers are exact: match counts are `Nat`, the relevance score computed by
`dataLoader.js` is a rational, and the enhanced loader's score (which divides by
`Math.sqrt`) is a real rounded to an integer, mirroring `Math.round`.
-/

namespace OpenHadith

/-- Character-wise lowering, the model of `String.prototype.toLowerCase`
(JavaScript's mapping agrees with `Char.toLower` on ASCII and leaves Arabic
text unchanged). -/
def lowerStr (l : List Char) : List Char := l.map Char.toLower

/-- Model of `String.prototype.trim`: drop whitespace from both ends. -/
def trimStr (l : List Char) : List Char :=
  ((l.dropWhile Char.isWhitespace).reverse.dropWhile Char.isWhitespace).reverse

/-- Model of `String.prototype.startsWith pat`: `pat` heads the string. -/
def startsWithStr : List Char → List Char → Bool
  | [], _ => true
  | _ :: _, [] => false
  | p :: ps, c :: cs => p == c && startsWithStr ps cs

/-- Model of `String.prototype.includes pat`: `pat` occurs as a contiguous
substring. -/
def containsSub (pat : List Char) : List Char → Bool
  | [] => pat.isEmpty
  | c :: rest => startsWithStr pat (c :: rest) || containsSub pat rest

/-- Model of `String.prototype.indexOf pat` (meaningful when `pat` occurs). -/
def idxOf (pat : List Char) : List Char → Nat
  | [] => 0
  | c :: rest => if startsWithStr pat (c :: rest) then 0 else 1 + idxOf pat rest

/-- Fuel-indexed worker for `splitWs`; the fuel dominates the list length so the
recursion is structural. -/
def splitWsAux : Nat → List Char → List (List Char)
  | 0, _ => []
  | _, [] => []
  | fuel + 1, c :: rest =>
    if c.isWhitespace then splitWsAux fuel rest
    else (c :: rest.takeWhile (fun d => !d.isWhitespace)) ::
      splitWsAux fuel (rest.dropWhile (fun d => !d.isWhitespace))

/-- Model of `term.split(/\s+/)` on an already-trimmed term: the maximal runs of
non-whitespace characters, in order. -/
def splitWs (l : List Char) : List (List Char) := splitWsAux l.length l

/-- Fuel-indexed worker for `countOccur`. -/
def countOccurAux (pat : List Char) : Nat → List Char → Nat
  | 0, _ => 0
  | _, [] => 0
  | fuel + 1, c :: rest =>
    if startsWithStr pat (c :: rest) then
      1 + countOccurAux pat fuel (rest.drop (pat.length - 1))
    else countOccurAux pat fuel rest

/-- Model of `(text.match(new RegExp(pat, 'g')) || []).length` for a literal
pattern: the number of non-overlapping occurrences found scanning left to
right. -/
def countOccur (pat s : List Char) : Nat := countOccurAux pat s.length s

/-- JavaScript word characters, the `\w` class: ASCII letters, digits and
underscore. -/
def isWordChar (c : Char) : Bool := c.isAlphanum || c = '_'

/-- Truth value of `\w` at an optional character; the edges of the string count
as non-word positions. -/
def wordAt : Option Char → Bool
  | none => false
  | some c => isWordChar c

/-- Fuel-indexed worker for `countWordOccur`; `prev` is the character just
before the current scan position. -/
def countWordOccurAux (pat : List Char) : Nat → Option Char → List Char → Nat
  | 0, _, _ => 0
  | _, _, [] => 0
  | fuel + 1, prev, c :: rest =>
    if startsWithStr pat (c :: rest) &&
        (wordAt prev != wordAt (some c)) &&
        (wordAt pat.getLast? != wordAt ((c :: rest).drop pat.length).head?) then
      1 + countWordOccurAux pat fuel pat.getLast? (rest.drop (pat.length - 1))
    else countWordOccurAux pat fuel (some c) rest

/-- Model of `(text.match(new RegExp("\\b" + pat + "\\b", 'g')) || []).length`
for a literal word pattern: non-overlapping occurrences of `pat` whose two ends
sit on `\b` boundaries. -/
def countWordOccur (pat s : List Char) : Nat := countWordOccurAux pat s.length none s

/-- One hadith record as stored in the JSON data files
(`{id, text, textLength, hasFullDiacritics}`). -/
structure Hadith where
  id : String
  text : List Char
  textLength : Nat
  hasFullDiacritics : Bool
deriving DecidableEq

/-- One file variant of a collection (`{fileType, hadiths}`). -/
structure HadithFile where
  fileType : String
  hadiths : List Hadith
deriving DecidableEq

/-- One collection (`{collectionId, collectionName, collectionNameArabic, files}`). -/
structure Collection where
  collectionId : String
  collectionName : String
  collectionNameArabic : String
  files : List HadithFile
deriving DecidableEq

/-- The in-memory dataset `this.data` held by the loader. -/
structure HadithData where
  collections : List Collection
deriving DecidableEq

/-- The relevance formula of `HadithDataManager.calculateRelevance`
(`dataLoader.js` lines 257-278): positional score when the whole term occurs,
otherwise ten points per query token that occurs. This is the formula that
scores every result served by the search routes. -/
def simpleRelevance (text term : List Char) : ℚ :=
  let termLower := lowerStr term
  let textLower := lowerStr text
  if containsSub termLower textLower then
    100 - ((idxOf termLower textLower : ℚ) / (text.length : ℚ)) * 50
  else
    (((splitWs termLower).filter (fun w => containsSub w textLower)).length : ℚ) * 10

/-- The relevance formula of `HadithDataLoader.calculateRelevance`
(`enhanced-data-loader.js` lines 285-311), the canonical formula of the spec:
occurrences times 100, plus 50 for a prefix match, plus 25 per whole-word
occurrence, divided by the square root of a hundredth of the text length,
rounded to the nearest integer (`Math.round` rounds half up, as does
Mathlib's `round`). -/
noncomputable def canonicalRelevance (text searchTerm : List Char) : ℤ :=
  if text.isEmpty || searchTerm.isEmpty then 0
  else
    let lowerText := lowerStr text
    let lowerSearch := lowerStr searchTerm
    let occCount : ℤ := countOccur lowerSearch lowerText
    let afterStart : ℤ := occCount * 100 +
      (if startsWithStr lowerSearch lowerText then 50 else 0)
    let score : ℤ := afterStart + (countWordOccur lowerSearch lowerText : ℤ) * 25
    round ((score : ℝ) / Real.sqrt ((text.length : ℝ) / 100))

/-- Model of `HadithDataManager.fuzzySearch` (`dataLoader.js` lines 248-252):
some whitespace-separated token of the term occurs in the text. -/
def fuzzySearch (text term : List Char) : Bool :=
  (splitWs term).any (fun w => containsSub w text)

/-- A search result as pushed by `HadithDataManager.searchHadiths`: the hadith's
fields spread together with its collection, file type and relevance score. -/
structure SearchResult where
  id : String
  text : List Char
  textLength : Nat
  hasFullDiacritics : Bool
  collectionId : String
  collectionName : String
  fileType : String
  relevanceScore : ℚ
deriving DecidableEq

/-- Options accepted by `HadithDataManager.searchHadiths`; the route layer
(schema-validated) always passes natural-number `limit`/`offset`. -/
structure SearchOptions where
  collectionId : Option String
  fileType : Option String
  limit : Nat
  offset : Nat
  exactMatch : Bool

/-- Pagination block of a search response. -/
structure Pagination where
  total : Nat
  limit : Nat
  offset : Nat
  hasMore : Bool
deriving DecidableEq

/-- Response of `HadithDataManager.searchHadiths` (the `query` echo field is
omitted: it replays the input verbatim). -/
structure SearchResponse where
  hadiths : List SearchResult
  pagination : Pagination
deriving DecidableEq

/-- The result record built for a matching hadith (the object spread at
`dataLoader.js` lines 211-217). -/
def enrichHadith (c : Collection) (f : HadithFile) (searchTerm : List Char)
    (h : Hadith) : SearchResult :=
  { id := h.id
    text := h.text
    textLength := h.textLength
    hasFullDiacritics := h.hasFullDiacritics
    collectionId := c.collectionId
    collectionName := c.collectionName
    fileType := f.fileType
    relevanceScore := simpleRelevance (lowerStr h.text) searchTerm }

/-- Whether a hadith (lower-cased) text matches under the given mode:
whole-phrase containment in exact mode, token containment in fuzzy mode
(`dataLoader.js` lines 206-208). -/
def matchesQuery (exactMatch : Bool) (searchTerm textLower : List Char) : Bool :=
  if exactMatch then containsSub searchTerm textLower
  else fuzzySearch textLower searchTerm

/-- The `continue`-guard on collections (`if (collectionId && ...) continue`):
absent filter passes everything. -/
def collMatchOk (collectionId : Option String) (c : Collection) : Bool :=
  match collectionId with
  | none => true
  | some i => c.collectionId == i

/-- The `continue`-guard on files (`if (fileType && ...) continue`). -/
def fileMatchOk (fileType : Option String) (f : HadithFile) : Bool :=
  match fileType with
  | none => true
  | some t => f.fileType == t

/-- The match list accumulated by the nested loops of
`HadithDataManager.searchHadiths` (lines 190-221), in corpus encounter order:
collections filtered by id, files filtered by type, hadiths filtered by the
match predicate, each enriched with its provenance and score. -/
def searchMatches (d : HadithData) (searchTerm : List Char)
    (collectionId fileType : Option String) (exactMatch : Bool) : List SearchResult :=
  (d.collections.filter (collMatchOk collectionId)).flatMap (fun c =>
    (c.files.filter (fileMatchOk fileType)).flatMap (fun f =>
      (f.hadiths.filter (fun h =>
          matchesQuery exactMatch searchTerm (lowerStr h.text))).map
        (enrichHadith c f searchTerm)))

/-- The candidate list of a `searchHadiths` call: empty when the trimmed query
is empty (the guard at lines 183-185), otherwise the matches for the trimmed,
lower-cased term. -/
def searchCandidates (d : HadithData) (query : List Char)
    (collectionId fileType : Option String) (exactMatch : Bool) : List SearchResult :=
  if (trimStr query).isEmpty then []
  else searchMatches d (lowerStr (trimStr query)) collectionId fileType exactMatch

/-- The comparator order of `results.sort((a, b) => b.relevanceScore - a.relevanceScore)`:
`a` may stay before `b` iff `a`'s score is at least `b`'s. -/
def scoreRel (a b : SearchResult) : Prop := b.relevanceScore ≤ a.relevanceScore

instance : DecidableRel scoreRel := fun a b =>
  inferInstanceAs (Decidable (b.relevanceScore ≤ a.relevanceScore))

/-- Stable descending sort by relevance score, the model of the engine's
`Array.prototype.sort` call (stable per the ECMAScript specification). -/
def sortByScore (l : List SearchResult) : List SearchResult :=
  List.insertionSort scoreRel l

/-- Model of `HadithDataManager.searchHadiths` (`dataLoader.js` lines 174-243):
guard an empty trimmed query, collect and score matches, sort stably by
descending relevance, slice `[offset, offset + limit)`, and report the total
with `hasMore = offset + limit < total`. -/
def searchHadiths (d : HadithData) (query : List Char) (opts : SearchOptions) :
    SearchResponse :=
  let sorted := sortByScore
    (searchCandidates d query opts.collectionId opts.fileType opts.exactMatch)
  let total := sorted.length
  { hadiths := (sorted.drop opts.offset).take opts.limit
    pagination :=
      { total := total
        limit := opts.limit
        offset := opts.offset
        hasMore := decide (opts.offset + opts.limit < total) } }

/-- The filter dimensions of the `POST /advanced` route body
(`simple-auth-v2.js`): collection-id set, file-type set, inclusive length
bounds, required diacritics flag. -/
structure AdvFilters where
  collections : List String
  fileTypes : List String
  minLength : Option Nat
  maxLength : Option Nat
  hasFullDiacritics : Option Bool

/-- The compound predicate of the route's `filter` callback (lines 446-474):
each non-empty / present dimension must pass, absent dimensions are
unrestricted, and the dimensions are a conjunction. -/
def advFilterPred (f : AdvFilters) (h : SearchResult) : Bool :=
  (f.collections.isEmpty || f.collections.contains h.collectionId) &&
  (f.fileTypes.isEmpty || f.fileTypes.contains h.fileType) &&
  (match f.minLength with
   | none => true
   | some m => decide (m ≤ h.textLength)) &&
  (match f.maxLength with
   | none => true
   | some m => decide (h.textLength ≤ m)) &&
  (match f.hasFullDiacritics with
   | none => true
   | some b => h.hasFullDiacritics == b)

/-- Response of the `POST /advanced` handler (pagination echo and observability
counts; the `query`/`filters.applied` echo blocks are omitted). -/
structure AdvResponse where
  hadiths : List SearchResult
  pagination : Pagination
  resultsBeforeFiltering : Nat
  resultsAfterFiltering : Nat
deriving DecidableEq

/-- The options of the base search issued by the advanced route:
`searchHadiths(query, { limit: 1000, offset: 0 })`, every other option left at
its default (`collectionId`/`fileType` absent, `exactMatch` false). -/
def advBaseOptions : SearchOptions :=
  { collectionId := none, fileType := none, limit := 1000, offset := 0
    exactMatch := false }

/-- Model of the `POST /advanced` handler (`simple-auth-v2.js` lines 427-501):
take the first 1000 results of the base search, filter them by the compound
predicate, paginate the filtered list, and report the before/after counts. -/
def advancedSearch (d : HadithData) (query : List Char) (f : AdvFilters)
    (limit offset : Nat) : AdvResponse :=
  let results := searchHadiths d query advBaseOptions
  let filteredHadiths := results.hadiths.filter (advFilterPred f)
  let total := filteredHadiths.length
  { hadiths := (filteredHadiths.drop offset).take limit
    pagination :=
      { total := total
        limit := limit
        offset := offset
        hasMore := decide (offset + limit < total) }
    resultsBeforeFiltering := results.hadiths.length
    resultsAfterFiltering := total }

/-- One manifest entry of `collections-manifest.json`
(`{filename, collectionName, hadithCount, ...}`). -/
structure ManifestEntry where
  filename : String
  collectionName : String
  hadithCount : Nat
deriving DecidableEq

/-- The manifest document. -/
structure Manifest where
  totalCollections : Nat
  files : List ManifestEntry
deriving DecidableEq

/-- What reading one shard file can yield: the file is absent
(`fs.existsSync` false), reading or parsing it throws, or it parses to a
collection payload. -/
inductive FileOutcome where
  | missing : FileOutcome
  | unreadable : FileOutcome
  | ok : Collection → FileOutcome
deriving DecidableEq

/-- Projection of a successful read. -/
def FileOutcome.okCollection : FileOutcome → Option Collection
  | .ok c => some c
  | _ => none

/-- Whether the outcome is a thrown read/parse error. -/
def FileOutcome.isUnreadable : FileOutcome → Bool
  | .unreadable => true
  | _ => false

/-- What the loader records on success: the dataset plus the two stats
counters it sets. -/
structure LoadResult where
  data : HadithData
  collectionsCount : Nat
  hadithsCount : Nat
deriving DecidableEq

/-- The `for (const fileInfo of manifest.files)` loop of
`HadithDataLoader.loadFromSplitFiles` (lines 98-112): a missing file is
skipped with a warning, a read/parse error throws (caught at line 128, failing
the whole strategy), and a parsed file contributes its collection payload and
its manifest-declared `hadithCount` to the totals. -/
def splitGo (fs : String → FileOutcome) : List ManifestEntry →
    Option (List Collection × Nat)
  | [] => some ([], 0)
  | e :: rest =>
    match fs e.filename with
    | .missing => splitGo fs rest
    | .unreadable => none
    | .ok c => (splitGo fs rest).map (fun p => (c :: p.1, e.hadithCount + p.2))

/-- Model of `HadithDataLoader.loadFromSplitFiles` (lines 74-132): fails when
the collections directory or the manifest is absent (`manifest = none`) or when
some listed file throws on read/parse; otherwise rebuilds the dataset from the
collections that were actually read and reports the manifest-declared hadith
total. -/
def loadFromSplitFiles (fs : String → FileOutcome) (manifest : Option Manifest) :
    Option LoadResult :=
  match manifest with
  | none => none
  | some m =>
    (splitGo fs m.files).map (fun p => ⟨⟨p.1⟩, p.1.length, p.2⟩)

/-- What the unified `hadith-data.json` source can yield. -/
inductive UnifiedOutcome where
  | missing : UnifiedOutcome
  | unreadable : UnifiedOutcome
  | ok : HadithData → UnifiedOutcome
deriving DecidableEq

/-- The actual number of records in a collection: the sum of its file variants'
sequence lengths. -/
def actualCollectionTotal (c : Collection) : Nat :=
  (c.files.map (fun f => f.hadiths.length)).sum

/-- The actual number of records in a dataset, summed over all collections and
all of their file variants. -/
def actualTotal (d : HadithData) : Nat :=
  (d.collections.map actualCollectionTotal).sum

/-- Model of `HadithDataLoader.loadFromUnifiedFile` (lines 137-174): fails when
the file is absent or throws; otherwise serves the parsed dataset and counts
the records by walking every collection and file. -/
def loadFromUnifiedFile : UnifiedOutcome → Option LoadResult
  | .missing => none
  | .unreadable => none
  | .ok d => some ⟨d, d.collections.length, actualTotal d⟩

/-- Model of `HadithDataLoader.loadData` (lines 30-69): try the sharded
strategy, fall back to the unified file, and fail when neither succeeds; the
second component records `loadingMethod`. -/
def loadData (fs : String → FileOutcome) (manifest : Option Manifest)
    (unified : UnifiedOutcome) : Option (LoadResult × String) :=
  match loadFromSplitFiles fs manifest with
  | some r => some (r, "split-files")
  | none =>
    match loadFromUnifiedFile unified with
    | some r => some (r, "unified-file")
    | none => none

/-- JavaScript `Map.prototype.set` on an association list: overwrite the entry
in place when the key exists, append otherwise. -/
def mapSet (m : List (String × Collection)) (k : String) (v : Collection) :
    List (String × Collection) :=
  if m.any (fun p => p.1 == k) then
    m.map (fun p => if p.1 == k then (k, v) else p)
  else m ++ [(k, v)]

/-- JavaScript `Map.prototype.get` on the association model. -/
def mapGet (m : List (String × Collection)) (k : String) : Option Collection :=
  (m.find? (fun p => p.1 == k)).map (fun p => p.2)

/-- Model of `HadithDataManager.buildCollectionIndex` (`dataLoader.js` lines
47-53): clear the map and set every collection keyed by its id, in one pass
over the loaded corpus. -/
def buildCollectionIndex (d : HadithData) : List (String × Collection) :=
  d.collections.foldl (fun m c => mapSet m c.collectionId c) []

/-- Model of `HadithDataManager.getCollection` (lines 104-106): index lookup,
`null` when absent. -/
def getCollection (d : HadithData) (collectionId : String) : Option Collection :=
  mapGet (buildCollectionIndex d) collectionId

/-- The length collection loop of the `GET /distribution` stats handler
(`stats.js` lines 264-281): scope to one collection via the index when
requested (a null lookup contributes nothing), keep only the matching file
type when requested, and gather every record's `textLength`. -/
def collectLengths (d : HadithData) (collectionId fileType : Option String) :
    List Nat :=
  let cols : List Collection :=
    match collectionId with
    | some i => (getCollection d i).toList
    | none => d.collections
  cols.flatMap (fun c =>
    (c.files.filter (fileMatchOk fileType)).flatMap (fun f =>
      f.hadiths.map (fun h => h.textLength)))

/-- Ascending numeric sort, the model of `allLengths.sort((a, b) => a - b)`. -/
def sortAsc (l : List Nat) : List Nat := List.insertionSort (· ≤ ·) l

/-- The fixed percentile ladder of the distribution handler. -/
def percentileLadder : List Nat := [10, 25, 50, 75, 90, 95, 99]

/-- The percentile computation of the handler (lines 314-318): for each ladder
entry `p`, the element of the ascending-sorted lengths at index
`⌊p / 100 * total⌋` (exact arithmetic; the JavaScript float expression
`Math.floor((p / 100) * total)` agrees with `p * total / 100` for every ladder
value). -/
def distributionPercentiles (lengths : List Nat) : List (Nat × Nat) :=
  let sorted := sortAsc lengths
  let total := lengths.length
  percentileLadder.map (fun p => (p, sorted.getD (p * total / 100) 0))

/-- Model of the `GET /distribution` handler's percentile path: `none` when no
lengths are in scope (the handler returns the empty `note` response at lines
283-293), otherwise the ladder of percentile values. -/
def distributionHandler (d : HadithData) (collectionId fileType : Option String) :
    Option (List (Nat × Nat)) :=
  let allLengths := collectLengths d collectionId fileType
  if allLengths.isEmpty then none
  else some (distributionPercentiles allLengths)

/-- The empty advanced filter set: no collection restriction, no file-type
restriction, no length bounds, no diacritics requirement. -/
def emptyAdvFilters : AdvFilters :=
  { collections := [], fileTypes := [], minLength := none, maxLength := none
    hasFullDiacritics := none }

/-! ## Concrete data used by counterexamples and witnesses -/

/-- A record whose text is the single letter a. -/
def exHadithA : Hadith := { id := "1", text := ['a'], textLength := 1, hasFullDiacritics := false }

/-- A record whose text is ab. -/
def exHadithB : Hadith := { id := "2", text := ['a', 'b'], textLength := 2, hasFullDiacritics := true }

/-- A regular file variant holding the two small records. -/
def exFileReg : HadithFile := { fileType := "regular", hadiths := [exHadithA, exHadithB] }

/-- A two-record collection. -/
def exColA : Collection :=
  { collectionId := "c1", collectionName := "Alpha", collectionNameArabic := "alif"
    files := [exFileReg] }

/-- A one-record collection with a distinct identifier. -/
def exColB : Collection :=
  { collectionId := "c2", collectionName := "Beta", collectionNameArabic := "ba"
    files := [{ fileType := "regular"
                hadiths := [{ id := "3", text := ['b'], textLength := 1
                              hasFullDiacritics := false }] }] }

/-- A two-collection dataset. -/
def exData : HadithData := { collections := [exColA, exColB] }

/-- A text of length 100 whose square-root length penalty is exactly one:
the letter a followed by 99 spaces. -/
def exText100 : List Char := 'a' :: List.replicate 99 ' '

/-- The record carrying `exText100`. -/
def exHadith100 : Hadith :=
  { id := "h", text := exText100, textLength := 100, hasFullDiacritics := false }

/-- The file variant holding `exHadith100`. -/
def exFile100 : HadithFile := { fileType := "regular", hadiths := [exHadith100] }

/-- The collection holding `exFile100`. -/
def exCol100 : Collection :=
  { collectionId := "c1", collectionName := "Alpha", collectionNameArabic := "alif"
    files := [exFile100] }

/-- A dataset holding only `exHadith100`. -/
def exData100 : HadithData := { collections := [exCol100] }

/-- A file system where only a.json exists and parses (to `exColA`); every other
listed shard, in particular b.json, is missing. -/
def exFsMissing : String → FileOutcome :=
  fun s => if s = "a.json" then FileOutcome.ok exColA else FileOutcome.missing

/-- A manifest listing two shard files. -/
def exManifestTwo : Manifest :=
  { totalCollections := 2
    files := [{ filename := "a.json", collectionName := "Alpha", hadithCount := 1 },
              { filename := "b.json", collectionName := "Beta", hadithCount := 7 }] }

/-- A file system where every shard parses to `exColA` (which actually holds
two records). -/
def exFsOkA : String → FileOutcome := fun _ => FileOutcome.ok exColA

/-- A manifest whose single entry declares five records for a shard that
actually holds two. -/
def exManifestWrongCount : Manifest :=
  { totalCollections := 1
    files := [{ filename := "a.json", collectionName := "Alpha", hadithCount := 5 }] }

/-- A manifest whose single entry declares the accurate count of `exColA`. -/
def exManifestRightCount : Manifest :=
  { totalCollections := 1
    files := [{ filename := "a.json", collectionName := "Alpha", hadithCount := 2 }] }

/-! ## General lemmas about the string primitives -/

theorem startsWithStr_iff (pat s : List Char) :
    startsWithStr pat s = true ↔ ∃ t, pat ++ t = s := by
  induction pat generalizing s with
  | nil =>
    simp [startsWithStr]
  | cons p ps ih =>
    cases s with
    | nil =>
      simp [startsWithStr]
    | cons c cs =>
      simp only [startsWithStr, Bool.and_eq_true, beq_iff_eq, ih, List.cons_append,
        List.cons.injEq]
      constructor
      · rintro ⟨rfl, t, rfl⟩
        exact ⟨t, rfl, rfl⟩
      · rintro ⟨t, rfl, rfl⟩
        exact ⟨rfl, t, rfl⟩

theorem containsSub_iff (pat s : List Char) :
    containsSub pat s = true ↔ ∃ pre suf, pre ++ pat ++ suf = s := by
  induction s with
  | nil =>
    simp only [containsSub, List.isEmpty_iff]
    constructor
    · rintro rfl
      exact ⟨[], [], rfl⟩
    · rintro ⟨pre, suf, h⟩
      simp only [List.append_eq_nil, List.append_assoc] at h
      exact h.2.1
  | cons c rest ih =>
    simp only [containsSub, Bool.or_eq_true, ih, startsWithStr_iff]
    constructor
    · rintro (⟨t, ht⟩ | ⟨pre, suf, rfl⟩)
      · exact ⟨[], t, by simpa using ht⟩
      · exact ⟨c :: pre, suf, rfl⟩
    · rintro ⟨pre, suf, h⟩
      cases pre with
      | nil =>
        left
        exact ⟨suf, by simpa using h⟩
      | cons p ps =>
        right
        rw [List.cons_append, List.cons_append] at h
        injection h with h1 h2
        exact ⟨ps, suf, by simpa using h2⟩

/-- Substring containment is transitive: a substring of a substring of `s` is a
substring of `s`. -/
theorem containsSub_trans {a b s : List Char} (hab : containsSub a b = true)
    (hbs : containsSub b s = true) : containsSub a s = true := by
  rcases (containsSub_iff b s).mp hbs with ⟨p2, s2, rfl⟩
  rcases (containsSub_iff a b).mp hab with ⟨p1, s1, rfl⟩
  exact (containsSub_iff a _).mpr ⟨p2 ++ p1, s1 ++ s2, by simp⟩

/-- Every token produced by `splitWsAux` is a substring of its input, and a
token exists whenever the input holds a non-whitespace character. -/
theorem splitWsAux_token (fuel : Nat) :
    ∀ l : List Char, l.length ≤ fuel → (∃ c ∈ l, c.isWhitespace = false) →
      ∃ w ∈ splitWsAux fuel l, containsSub w l = true := by
  induction fuel with
  | zero =>
    intro l hl hc
    have hnil : l = [] := List.length_eq_zero.mp (Nat.le_zero.mp hl)
    subst hnil
    rcases hc with ⟨c, hc, _⟩
    simp at hc
  | succ fuel ih =>
    intro l hl hc
    cases l with
    | nil =>
      rcases hc with ⟨c, hc, _⟩
      simp at hc
    | cons c rest =>
      by_cases hws : c.isWhitespace
      · have hrest : ∃ x ∈ rest, x.isWhitespace = false := by
          rcases hc with ⟨x, hx, hxw⟩
          rcases List.mem_cons.mp hx with rfl | hx
          · rw [hws] at hxw
            cases hxw
          · exact ⟨x, hx, hxw⟩
        have hr : rest.length ≤ fuel := by simpa using hl
        rcases ih rest hr hrest with ⟨w, hw, hsub⟩
        refine ⟨w, ?_, ?_⟩
        · simp [splitWsAux, hws, hw]
        · simp only [containsSub]
          rw [hsub]
          simp
      · refine ⟨c :: rest.takeWhile (fun d => !d.isWhitespace), ?_, ?_⟩
        · simp [splitWsAux, hws]
        · refine (containsSub_iff _ _).mpr ⟨[], rest.dropWhile (fun d => !d.isWhitespace), ?_⟩
          simp [List.takeWhile_append_dropWhile]

/-- On input that contains a non-whitespace character, `splitWs` produces at
least one token, and each such token is a substring of the input. -/
theorem splitWs_token {l : List Char} (h : ∃ c ∈ l, c.isWhitespace = false) :
    ∃ w ∈ splitWs l, containsSub w l = true :=
  splitWsAux_token l.length l le_rfl h

/-- Lowering a character does not change whether it is whitespace: `toLower`
only moves ASCII capitals to ASCII smalls, and neither are whitespace. -/
theorem toLower_isWhitespace (c : Char) :
    (c.toLower).isWhitespace = c.isWhitespace := by
  have key : ∀ (n : Nat), n.isValidChar → 97 ≤ n → n ≤ 122 →
      (Char.ofNat n).isWhitespace = false := by
    intro n hv h1 h2
    have ht : (Char.ofNat n).toNat = n := by
      simp [Char.ofNat, hv, Char.ofNatAux, Char.toNat, UInt32.toNat]
    simp only [Char.isWhitespace]
    have e1 : ¬ (Char.ofNat n = ' ') := by
      intro hh; rw [hh] at ht
      have hx : (' ').toNat = 32 := rfl
      rw [hx] at ht; omega
    have e2 : ¬ (Char.ofNat n = '\t') := by
      intro hh; rw [hh] at ht
      have hx : ('\t').toNat = 9 := rfl
      rw [hx] at ht; omega
    have e3 : ¬ (Char.ofNat n = '\x0d') := by
      intro hh; rw [hh] at ht
      have hx : ('\x0d').toNat = 13 := rfl
      rw [hx] at ht; omega
    have e4 : ¬ (Char.ofNat n = '\n') := by
      intro hh; rw [hh] at ht
      have hx : ('\n').toNat = 10 := rfl
      rw [hx] at ht; omega
    simp [e1, e2, e3, e4]
  unfold Char.toLower
  by_cases h : c.toNat ≥ 65 ∧ c.toNat ≤ 90
  · simp only [h, and_self, if_true]
    have hcws : c.isWhitespace = false := by
      simp only [Char.isWhitespace]
      have e1 : ¬ (c = ' ') := by
        intro hh; rw [hh] at h
        have hx : (' ').toNat = 32 := rfl
        rw [hx] at h; omega
      have e2 : ¬ (c = '\t') := by
        intro hh; rw [hh] at h
        have hx : ('\t').toNat = 9 := rfl
        rw [hx] at h; omega
      have e3 : ¬ (c = '\x0d') := by
        intro hh; rw [hh] at h
        have hx : ('\x0d').toNat = 13 := rfl
        rw [hx] at h; omega
      have e4 : ¬ (c = '\n') := by
        intro hh; rw [hh] at h
        have hx : ('\n').toNat = 10 := rfl
        rw [hx] at h; omega
      simp [e1, e2, e3, e4]
    rw [hcws]
    exact key (c.toNat + 32) (Or.inl (by omega)) (by omega) (by omega)
  · simp [h]

/-- The head surviving a `dropWhile` fails the dropped predicate. -/
theorem dropWhile_head_false {α : Type} (p : α → Bool) :
    ∀ (l : List α) (x : α) (xs : List α), l.dropWhile p = x :: xs → p x = false := by
  intro l
  induction l with
  | nil =>
    intro x xs h
    simp [List.dropWhile] at h
  | cons a as ih =>
    intro x xs h
    by_cases hp : p a
    · rw [List.dropWhile_cons_of_pos hp] at h
      exact ih x xs h
    · rw [List.dropWhile_cons_of_neg hp] at h
      injection h with h1 _
      rw [← h1]
      exact Bool.of_not_eq_true hp

/-- A non-empty trimmed string holds at least one non-whitespace character. -/
theorem trimStr_has_nonWs {q : List Char} (h : trimStr q ≠ []) :
    ∃ c ∈ trimStr q, c.isWhitespace = false := by
  unfold trimStr at h ⊢
  rcases hB :
      (q.dropWhile Char.isWhitespace).reverse.dropWhile Char.isWhitespace with _ | ⟨x, xs⟩
  · rw [hB] at h
    simp at h
  · refine ⟨x, ?_, dropWhile_head_false _ _ _ _ hB⟩
    simp [hB]

/-- Lowering preserves the existence of a non-whitespace character. -/
theorem lowerStr_has_nonWs {l : List Char} (h : ∃ c ∈ l, c.isWhitespace = false) :
    ∃ c ∈ lowerStr l, c.isWhitespace = false := by
  rcases h with ⟨c, hc, hw⟩
  refine ⟨c.toLower, List.mem_map_of_mem Char.toLower hc, ?_⟩
  rw [toLower_isWhitespace]
  exact hw

/-! ## Lemmas about the stable relevance sort -/

instance : IsTotal SearchResult scoreRel :=
  ⟨fun a b => le_total b.relevanceScore a.relevanceScore⟩

instance : IsTrans SearchResult scoreRel :=
  ⟨fun _ _ _ h1 h2 => le_trans h2 h1⟩

theorem sortByScore_perm (l : List SearchResult) : (sortByScore l).Perm l :=
  List.perm_insertionSort scoreRel l

theorem mem_sortByScore {a : SearchResult} {l : List SearchResult} :
    a ∈ sortByScore l ↔ a ∈ l :=
  (sortByScore_perm l).mem_iff

theorem sortByScore_length (l : List SearchResult) :
    (sortByScore l).length = l.length :=
  (sortByScore_perm l).length_eq

theorem sortByScore_sorted (l : List SearchResult) :
    List.Sorted scoreRel (sortByScore l) :=
  List.sorted_insertionSort scoreRel l

/-- Inserting an element does not disturb, for any score value, the subsequence
of results carrying exactly that score: elements passed over by the insertion
have strictly larger scores. -/
theorem filter_orderedInsert (s : ℚ) (x : SearchResult) (l : List SearchResult) :
    (List.orderedInsert scoreRel x l).filter
        (fun r => decide (r.relevanceScore = s)) =
      ((x :: l).filter (fun r => decide (r.relevanceScore = s))) := by
  induction l with
  | nil => rfl
  | cons y ys ih =>
    by_cases h : scoreRel x y
    · simp [List.orderedInsert, h]
    · have hlt : x.relevanceScore < y.relevanceScore := by
        unfold scoreRel at h
        exact lt_of_not_le h
      rw [List.orderedInsert, if_neg h]
      by_cases hx : x.relevanceScore = s
      · have hy : ¬ (y.relevanceScore = s) := by
          intro hh
          rw [hx] at hlt
          rw [hh] at hlt
          exact lt_irrefl s hlt
        simp [List.filter_cons, hx, hy, ih]
      · by_cases hy : y.relevanceScore = s
        · simp [List.filter_cons, hx, hy, ih]
        · simp [List.filter_cons, hx, hy, ih]

/-- Stability of the relevance sort: for every score value, the results holding
exactly that score appear in the sorted list in their original (corpus
encounter) order. -/
theorem sortByScore_filter (s : ℚ) (l : List SearchResult) :
    (sortByScore l).filter (fun r => decide (r.relevanceScore = s)) =
      l.filter (fun r => decide (r.relevanceScore = s)) := by
  induction l with
  | nil => rfl
  | cons x xs ih =>
    show (List.orderedInsert scoreRel x (sortByScore xs)).filter _ = _
    rw [filter_orderedInsert]
    simp only [List.filter_cons]
    rw [ih]

/-! ## The pagination chunk lemma -/

/-- Splitting a list into `⌈length / L⌉` consecutive chunks of size `L` and
concatenating them reproduces the list. -/
theorem chunks_join {α : Type} (L : Nat) (hL : 1 ≤ L) :
    ∀ (n : Nat) (l : List α), l.length ≤ n →
      ((List.range ((l.length + L - 1) / L)).map
        (fun k => (l.drop (k * L)).take L)).flatten = l := by
  have harith : ∀ m : Nat, 1 ≤ m → (m + L - 1) / L = (m - L + L - 1) / L + 1 := by
    intro m hm
    rcases Nat.lt_or_ge m L with h | h
    · have h1 : m - L = 0 := Nat.sub_eq_zero_of_le (le_of_lt h)
      rw [h1]
      have h2 : (0 + L - 1) / L = 0 := Nat.div_eq_of_lt (by omega)
      have h3 : (m + L - 1) / L = 1 := Nat.div_eq_of_lt_le (by omega) (by omega)
      omega
    · have e1 : m - L + L - 1 = m - 1 := by omega
      have e2 : m + L - 1 = (m - 1) + L := by omega
      rw [e1, e2, Nat.add_div_right _ (by omega : 0 < L)]
  intro n
  induction n with
  | zero =>
    intro l hl
    have hnil : l = [] := List.length_eq_zero.mp (Nat.le_zero.mp hl)
    subst hnil
    have : (0 + L - 1) / L = 0 := Nat.div_eq_of_lt (by omega)
    simp [this]
  | succ n ih =>
    intro l hl
    cases l with
    | nil =>
      have : (0 + L - 1) / L = 0 := Nat.div_eq_of_lt (by omega)
      simp [this]
    | cons x xs =>
      have hlen : 1 ≤ (x :: xs).length := by simp
      rw [harith _ hlen, List.range_succ_eq_map, List.map_cons, List.map_map]
      have hdrop : ((x :: xs).drop L).length = (x :: xs).length - L := by
        simp [List.length_drop]
      have htail :
          ((List.range (((x :: xs).length - L + L - 1) / L)).map
            ((fun k => ((x :: xs).drop (k * L)).take L) ∘ Nat.succ)).flatten =
            (x :: xs).drop L := by
        have hrw : ((fun k => ((x :: xs).drop (k * L)).take L) ∘ Nat.succ) =
            (fun k => (((x :: xs).drop L).drop (k * L)).take L) := by
          funext k
          simp only [Function.comp_apply, List.drop_drop]
          congr 2
          rw [Nat.succ_eq_add_one]
          ring
        rw [hrw, ← hdrop]
        refine ih ((x :: xs).drop L) ?_
        rw [List.length_drop]
        simp only [List.length_cons]
        simp only [List.length_cons] at hl
        omega
      rw [List.flatten_cons, htail]
      simp [List.take_append_drop]

/-! ## Lemmas about the sharded loader -/

@[simp]
theorem isUnreadable_missing : FileOutcome.missing.isUnreadable = false := rfl

@[simp]
theorem isUnreadable_unreadable : FileOutcome.unreadable.isUnreadable = true := rfl

@[simp]
theorem isUnreadable_ok (c : Collection) : (FileOutcome.ok c).isUnreadable = false := rfl

@[simp]
theorem okCollection_missing : FileOutcome.missing.okCollection = none := rfl

@[simp]
theorem okCollection_unreadable : FileOutcome.unreadable.okCollection = none := rfl

@[simp]
theorem okCollection_ok (c : Collection) :
    (FileOutcome.ok c).okCollection = some c := rfl

/-- Closed form of the manifest loop: it fails exactly when some listed file is
unreadable; otherwise it returns the collections of the readable files in
manifest order together with the sum of their manifest-declared counts. -/
theorem splitGo_eq (fs : String → FileOutcome) (entries : List ManifestEntry) :
    splitGo fs entries =
      if entries.any (fun e => (fs e.filename).isUnreadable) then none
      else some
        (entries.filterMap (fun e => (fs e.filename).okCollection),
         ((entries.filter (fun e => ((fs e.filename).okCollection).isSome)).map
           (fun e => e.hadithCount)).sum) := by
  induction entries with
  | nil => rfl
  | cons e rest ih =>
    cases hfs : fs e.filename with
    | missing =>
      simp only [splitGo, hfs, ih, List.any_cons, isUnreadable_missing,
        Bool.false_or, List.filterMap_cons, okCollection_missing,
        List.filter_cons, Option.isSome_none, Bool.false_eq_true, if_false]
    | unreadable =>
      simp [splitGo, hfs, List.any_cons]
    | ok c =>
      simp only [splitGo, hfs, ih, List.any_cons, isUnreadable_ok, Bool.false_or,
        List.filterMap_cons, okCollection_ok, List.filter_cons, Option.isSome_some,
        if_true]
      by_cases hrest : rest.any (fun e => (fs e.filename).isUnreadable)
      · simp [hrest]
      · simp [hrest]

/-! ## Lemmas about the collection index -/

/-- Folding fresh keys into the association map appends them in order. -/
theorem buildIndex_go (cs : List Collection) :
    ∀ m : List (String × Collection),
      (∀ c ∈ cs, ∀ p ∈ m, p.1 ≠ c.collectionId) →
      (cs.map (fun c => c.collectionId)).Nodup →
      cs.foldl (fun m c => mapSet m c.collectionId c) m =
        m ++ cs.map (fun c => (c.collectionId, c)) := by
  induction cs with
  | nil =>
    intro m _ _
    simp
  | cons c rest ih =>
    intro m hfresh hnodup
    have hnotin : m.any (fun p => p.1 == c.collectionId) = false := by
      rw [List.any_eq_false]
      intro p hp
      simp only [beq_iff_eq]
      exact hfresh c (by simp) p hp
    have hstep : mapSet m c.collectionId c = m ++ [(c.collectionId, c)] := by
      unfold mapSet
      rw [hnotin]
      simp
    rw [List.foldl_cons, hstep]
    rw [ih (m ++ [(c.collectionId, c)]) ?_ ?_]
    · simp
    · intro c' hc' p hp
      rcases List.mem_append.mp hp with hpm | hpe
      · exact hfresh c' (List.mem_cons_of_mem _ hc') p hpm
      · simp only [List.mem_singleton] at hpe
        subst hpe
        simp only [List.map_cons, List.nodup_cons] at hnodup
        intro heq
        have heq2 : c.collectionId = c'.collectionId := heq
        apply hnodup.1
        rw [heq2]
        exact List.mem_map_of_mem (fun c => c.collectionId) hc'
    · simp only [List.map_cons, List.nodup_cons] at hnodup
      exact hnodup.2

/-- With distinct collection identifiers, the built index is exactly the
key/value pairing of the corpus, in corpus order. -/
theorem buildCollectionIndex_eq (d : HadithData)
    (hnodup : (d.collections.map (fun c => c.collectionId)).Nodup) :
    buildCollectionIndex d = d.collections.map (fun c => (c.collectionId, c)) := by
  unfold buildCollectionIndex
  rw [buildIndex_go d.collections [] (by intro c _ p hp; simp at hp) hnodup]
  simp

/-- Looking a collection's own identifier up in the pairing finds exactly that
collection. -/
theorem find_map_pair :
    ∀ (cs : List Collection), (cs.map (fun c => c.collectionId)).Nodup →
      ∀ C ∈ cs, (cs.map (fun c => (c.collectionId, c))).find?
        (fun p => p.1 == C.collectionId) = some (C.collectionId, C) := by
  intro cs
  induction cs with
  | nil =>
    intro _ C hC
    simp at hC
  | cons c rest ih =>
    intro hnodup C hC
    simp only [List.map_cons, List.nodup_cons] at hnodup
    by_cases h : c.collectionId == C.collectionId
    · have hCc : C = c := by
        rcases List.mem_cons.mp hC with rfl | hCrest
        · rfl
        · exfalso
          apply hnodup.1
          have : c.collectionId = C.collectionId := by
            simpa [beq_iff_eq] using h
          rw [this]
          exact List.mem_map_of_mem (fun c => c.collectionId) hCrest
      subst hCc
      simp [List.find?]
    · have hCrest : C ∈ rest := by
        rcases List.mem_cons.mp hC with rfl | hCrest
        · exfalso
          apply h
          simp
        · exact hCrest
      have hpa : ((c.collectionId, c).1 == C.collectionId) = false := by
        simpa using h
      rw [List.map_cons]
      simp only [List.find?_cons, hpa]
      exact ih hnodup.2 C hCrest

/-! ## Membership in the search match list -/

/-- Characterisation of membership in `searchMatches`: a result is exactly an
enrichment of some matching hadith of some admitted file of some admitted
collection. -/
theorem mem_searchMatches {d : HadithData} {st : List Char}
    {cid ft : Option String} {ex : Bool} {r : SearchResult} :
    r ∈ searchMatches d st cid ft ex ↔
      ∃ c, c ∈ d.collections ∧ collMatchOk cid c = true ∧
        ∃ f, f ∈ c.files ∧ fileMatchOk ft f = true ∧
          ∃ h, h ∈ f.hadiths ∧
            matchesQuery ex st (lowerStr h.text) = true ∧
            r = enrichHadith c f st h := by
  simp only [searchMatches, List.mem_flatMap, List.mem_filter, List.mem_map]
  constructor
  · rintro ⟨c, ⟨hc, hcok⟩, f, ⟨hf, hfok⟩, h, ⟨hh, hmatch⟩, rfl⟩
    exact ⟨c, hc, hcok, f, hf, hfok, h, hh, hmatch, rfl⟩
  · rintro ⟨c, hc, hcok, f, hf, hfok, h, hh, hmatch, rfl⟩
    exact ⟨c, ⟨hc, hcok⟩, f, ⟨hf, hfok⟩, h, ⟨hh, hmatch⟩, rfl⟩

/-! ## Claim C1 -/

/-- C1, counterexample: a manifest lists two shard files, one of them is
missing on disk, and yet `loadFromSplitFiles` succeeds and serves a corpus
built from the strict subset consisting of the one present shard: the sharded
strategy is not abandoned on a missing listed file. -/
theorem C1_counterexample :
    exFsMissing "b.json" = FileOutcome.missing ∧
    (∃ e ∈ exManifestTwo.files, e.filename = "b.json") ∧
    exManifestTwo.files.length = 2 ∧
    loadFromSplitFiles exFsMissing (some exManifestTwo) =
      some { data := { collections := [exColA] }, collectionsCount := 1
             hadithsCount := 1 } := by
  refine ⟨rfl, ⟨{ filename := "b.json", collectionName := "Beta", hadithCount := 7 },
    by decide, rfl⟩, rfl, ?_⟩
  decide

/-- C1, amended: only a read or parse error on a listed shard aborts the
sharded strategy as a whole (after which `loadData` falls back to the unified
source); a listed shard that is merely missing is skipped with a warning, so
the corpus served is exactly the one built from the readable shards — possibly
a strict subset of the manifest — and the reported hadith total is the sum of
the manifest-declared counts of those shards, never validated against the
actual content. -/
theorem C1_split_strategy_behavior :
    ∀ (fs : String → FileOutcome) (m : Manifest) (u : UnifiedOutcome),
      (loadFromSplitFiles fs (some m) =
        if m.files.any (fun e => (fs e.filename).isUnreadable) then none
        else some
          { data := { collections :=
              m.files.filterMap (fun e => (fs e.filename).okCollection) }
            collectionsCount :=
              (m.files.filterMap (fun e => (fs e.filename).okCollection)).length
            hadithsCount :=
              ((m.files.filter (fun e => ((fs e.filename).okCollection).isSome)).map
                (fun e => e.hadithCount)).sum }) ∧
      (loadFromSplitFiles fs (some m) = none →
        loadData fs (some m) u =
          (loadFromUnifiedFile u).map (fun r => (r, "unified-file"))) := by
  intro fs m u
  constructor
  · show (splitGo fs m.files).map _ = _
    rw [splitGo_eq]
    by_cases hany : m.files.any (fun e => (fs e.filename).isUnreadable)
    · simp [hany]
    · simp [hany]
  · intro hnone
    unfold loadData
    rw [hnone]
    cases loadFromUnifiedFile u with
    | none => rfl
    | some r => rfl

/-- C1, witness: on a manifest whose only listed shard throws on read, the
sharded strategy fails as a whole and `loadData` serves the unified source. -/
theorem C1_split_strategy_behavior_witness :
    loadData (fun _ => FileOutcome.unreadable) (some exManifestRightCount)
        (UnifiedOutcome.ok exData) =
      (loadFromUnifiedFile (UnifiedOutcome.ok exData)).map
        (fun r => (r, "unified-file")) :=
  (C1_split_strategy_behavior (fun _ => FileOutcome.unreadable)
    exManifestRightCount (UnifiedOutcome.ok exData)).2 (by decide)

/-! ## Claim C2 -/

/-- C2, counterexample: a sharded load whose manifest declares five records for
a shard that actually holds two succeeds and reports `hadithsCount = 5`, while
the actual record sum of the served dataset is 2 — and the unified strategy on
the very same dataset reports 2: the reported total is not the actual sum and
the two strategies disagree on the same underlying data. -/
theorem C2_counterexample :
    loadFromSplitFiles exFsOkA (some exManifestWrongCount) =
      some { data := { collections := [exColA] }, collectionsCount := 1
             hadithsCount := 5 } ∧
    actualTotal { collections := [exColA] } = 2 ∧
    loadFromUnifiedFile (UnifiedOutcome.ok { collections := [exColA] }) =
      some { data := { collections := [exColA] }, collectionsCount := 1
             hadithsCount := 2 } ∧
    (5 : Nat) ≠ 2 := by
  refine ⟨by decide, by decide, by decide, by decide⟩

/-- Helper for C2: when every listed shard parses and carries an accurate
declared count, the declared sum coincides with the actual record sum of the
loaded collections. -/
theorem declaredSum_eq_actualSum (fs : String → FileOutcome) :
    ∀ entries : List ManifestEntry,
      (∀ e ∈ entries, ∃ c, fs e.filename = FileOutcome.ok c ∧
        e.hadithCount = actualCollectionTotal c) →
      ((entries.filter (fun e => ((fs e.filename).okCollection).isSome)).map
        (fun e => e.hadithCount)).sum =
      ((entries.filterMap (fun e => (fs e.filename).okCollection)).map
        actualCollectionTotal).sum := by
  intro entries
  induction entries with
  | nil =>
    intro _
    rfl
  | cons e rest ih =>
    intro hacc
    rcases hacc e (by simp) with ⟨c, hfs, hcount⟩
    have hrest := ih (fun e' he' => hacc e' (List.mem_cons_of_mem _ he'))
    simp only [List.filter_cons, List.filterMap_cons, hfs, okCollection_ok,
      Option.isSome_some, if_true, List.map_cons, List.sum_cons]
    rw [hrest, hcount]

/-- C2, amended: under the unified strategy the reported total equals the
actual record sum of the dataset; under the sharded strategy the reported
total is the sum of the manifest-declared counts of the shards that were
actually read, which equals the actual record sum of the served dataset only
when every listed shard parses and its declared count is accurate. -/
theorem C2_reported_totals :
    (∀ d : HadithData,
      (loadFromUnifiedFile (UnifiedOutcome.ok d)).map (fun r => r.hadithsCount) =
        some (actualTotal d)) ∧
    (∀ (fs : String → FileOutcome) (m : Manifest) (r : LoadResult),
      loadFromSplitFiles fs (some m) = some r →
        r.hadithsCount =
          ((m.files.filter (fun e => ((fs e.filename).okCollection).isSome)).map
            (fun e => e.hadithCount)).sum ∧
        ((∀ e ∈ m.files, ∃ c, fs e.filename = FileOutcome.ok c ∧
            e.hadithCount = actualCollectionTotal c) →
          r.hadithsCount = actualTotal r.data)) := by
  constructor
  · intro d
    rfl
  · intro fs m r hload
    have hload2 : (splitGo fs m.files).map
        (fun p => (⟨⟨p.1⟩, p.1.length, p.2⟩ : LoadResult)) = some r := hload
    rw [splitGo_eq] at hload2
    by_cases hany : m.files.any (fun e => (fs e.filename).isUnreadable)
    · rw [if_pos hany] at hload2
      cases hload2
    · rw [if_neg hany] at hload2
      simp only [Option.map_some'] at hload2
      injection hload2 with hre
      subst hre
      constructor
      · rfl
      · intro hacc
        unfold actualTotal
        exact declaredSum_eq_actualSum fs m.files hacc

/-- C2, witness: a sharded load with one accurate shard reports the declared
sum, which is also the actual record sum of the served dataset. -/
theorem C2_reported_totals_witness :
    ({ data := { collections := [exColA] }, collectionsCount := 1
       hadithsCount := 2 } : LoadResult).hadithsCount =
      ((exManifestRightCount.files.filter
        (fun e => ((exFsOkA e.filename).okCollection).isSome)).map
        (fun e => e.hadithCount)).sum ∧
    ({ data := { collections := [exColA] }, collectionsCount := 1
       hadithsCount := 2 } : LoadResult).hadithsCount =
      actualTotal { collections := [exColA] } := by
  have h := (C2_reported_totals).2 exFsOkA exManifestRightCount
    { data := { collections := [exColA] }, collectionsCount := 1, hadithsCount := 2 }
    (by decide)
  refine ⟨h.1, h.2 ?_⟩
  intro e he
  have he2 : e = { filename := "a.json", collectionName := "Alpha", hadithCount := 2 } := by
    simpa [exManifestRightCount] using he
  subst he2
  exact ⟨exColA, rfl, by decide⟩

/-! ## Claim C3 -/

/-- Helper: the route-served score of the length-100 record for the query a is
exactly 100 under the simple positional formula. -/
theorem simpleRelevance_eval100 :
    simpleRelevance (lowerStr exText100) ['a'] = 100 := by
  unfold simpleRelevance
  have hc : containsSub (lowerStr ['a']) (lowerStr (lowerStr exText100)) = true := by
    decide
  have hi : idxOf (lowerStr ['a']) (lowerStr (lowerStr exText100)) = 0 := by decide
  have hl : (lowerStr exText100).length = 100 := by decide
  simp only [hc, if_true, hi, hl]
  norm_num

/-- Helper: the full result list of the served search on `exData100` for the
query a is the single enriched record. -/
theorem searchHadiths_exData100_eval :
    (searchHadiths exData100 ['a']
        { collectionId := none, fileType := none, limit := 50, offset := 0
          exactMatch := false }).hadiths =
      [enrichHadith exCol100 exFile100 ['a'] exHadith100] := rfl

/-- C3, counterexample: on a record whose text is the letter a followed by 99
spaces (so the length penalty is exactly one), the search path served by the
routes returns relevance 100, while the canonical formula of the spec yields
1 occurrence x 100 + 50 prefix bonus + 25 whole-word bonus = 175: the served
score does not equal the canonical formula, so the two search code paths do
not share one formula. -/
theorem C3_counterexample :
    (searchHadiths exData100 ['a']
        { collectionId := none, fileType := none, limit := 50, offset := 0
          exactMatch := false }).hadiths.map (fun r => r.relevanceScore) = [100] ∧
    canonicalRelevance exText100 ['a'] = 175 ∧
    ((100 : ℚ) ≠ ((175 : ℤ) : ℚ)) := by
  refine ⟨?_, ?_, by norm_num⟩
  · rw [searchHadiths_exData100_eval]
    show [simpleRelevance (lowerStr exText100) ['a']] = [100]
    rw [simpleRelevance_eval100]
  have h1 : countOccur (lowerStr ['a']) (lowerStr exText100) = 1 := by decide
  have h2 : startsWithStr (lowerStr ['a']) (lowerStr exText100) = true := by decide
  have h3 : countWordOccur (lowerStr ['a']) (lowerStr exText100) = 1 := by decide
  have h4 : exText100.length = 100 := by decide
  have h5 : (exText100.isEmpty || (['a'] : List Char).isEmpty) = false := by decide
  unfold canonicalRelevance
  rw [h5]
  simp only [Bool.false_eq_true, if_false, h1, h2, h3, h4, if_true]
  have h6 : ((100 : ℕ) : ℝ) / 100 = 1 := by norm_num
  rw [h6, Real.sqrt_one, div_one]
  have h7 : (((1 : ℕ) : ℤ) * 100 + 50 + ((1 : ℕ) : ℤ) * 25 : ℤ) = 175 := by norm_num
  rw [h7]
  exact_mod_cast round_intCast (α := ℝ) 175

/-- C3, amended: every record returned by the served search path carries the
relevance score of the simple positional formula of `dataLoader.js`
(`simpleRelevance`), computed on the lower-cased text and the trimmed,
lower-cased query; the canonical occurrence/prefix/whole-word/length formula
lives only in the enhanced loader's own (route-unused) search path, and the
two formulas disagree. -/
theorem C3_served_relevance :
    ∀ (d : HadithData) (q : List Char) (opts : SearchOptions) (r : SearchResult),
      r ∈ (searchHadiths d q opts).hadiths →
      r.relevanceScore = simpleRelevance (lowerStr r.text) (lowerStr (trimStr q)) := by
  intro d q opts r hr
  have h1 : r ∈ sortByScore
      (searchCandidates d q opts.collectionId opts.fileType opts.exactMatch) :=
    List.mem_of_mem_drop (List.mem_of_mem_take hr)
  have h2 := mem_sortByScore.mp h1
  unfold searchCandidates at h2
  by_cases hq : (trimStr q).isEmpty
  · rw [if_pos hq] at h2
    simp at h2
  · rw [if_neg hq] at h2
    rcases mem_searchMatches.mp h2 with ⟨c, _, _, f, _, _, h, _, _, rfl⟩
    rfl

/-- C3, witness: the record of `exData100` served for the query a carries the
simple-formula score. -/
theorem C3_served_relevance_witness :
    (enrichHadith exCol100 exFile100 ['a'] exHadith100).relevanceScore =
      simpleRelevance (lowerStr exText100) (lowerStr (trimStr ['a'])) :=
  C3_served_relevance exData100 ['a']
    { collectionId := none, fileType := none, limit := 50, offset := 0
      exactMatch := false }
    (enrichHadith exCol100 exFile100 ['a'] exHadith100)
    (by rw [searchHadiths_exData100_eval]; exact List.mem_singleton.mpr rfl)

/-! ## Claim C4 -/

/-- C4: the candidate set handed to the advanced route's filter pipeline is the
first 1000 results of the base search (`searchHadiths` called with limit 1000,
offset 0, no other options), so `resultsBeforeFiltering` never exceeds 1000 and
every record the advanced route returns — for any filter combination and any
pagination — is drawn from those top-1000 base results; records ranked below
them are never returned. -/
theorem C4_advanced_base_cap :
    ∀ (d : HadithData) (q : List Char) (f : AdvFilters) (L O : Nat),
      (advancedSearch d q f L O).resultsBeforeFiltering ≤ 1000 ∧
      (searchHadiths d q advBaseOptions).hadiths =
        ((searchHadiths d q
          { collectionId := none, fileType := none
            limit := (searchHadiths d q advBaseOptions).pagination.total
            offset := 0, exactMatch := false }).hadiths).take 1000 ∧
      List.Sublist (advancedSearch d q f L O).hadiths
        (searchHadiths d q advBaseOptions).hadiths := by
  intro d q f L O
  refine ⟨?_, ?_, ?_⟩
  · show (((sortByScore (searchCandidates d q none none false)).drop 0).take 1000).length
        ≤ 1000
    exact List.length_take_le 1000 _
  · show ((sortByScore (searchCandidates d q none none false)).drop 0).take 1000 =
      (((sortByScore (searchCandidates d q none none false)).drop 0).take
        ((sortByScore (searchCandidates d q none none false)).length)).take 1000
    rw [List.drop_zero, List.take_length]
  · show List.Sublist
      ((((searchHadiths d q advBaseOptions).hadiths.filter (advFilterPred f)).drop O).take L)
      (searchHadiths d q advBaseOptions).hadiths
    exact ((List.take_sublist _ _).trans (List.drop_sublist _ _)).trans
      (List.filter_sublist _)

/-! ## Claim C5 -/

/-- C5: with an empty collection set, an empty file-type set and no length or
diacritics filters, the advanced filter is the identity on every result list
(an empty dimension is unrestricted, never exclude-all), so `advancedSearch`
returns exactly the requested slice of the unfiltered base search, reporting
the unfiltered count; and for every filter combination the pipeline only ever
removes elements, preserving the relative order of its input sequence. -/
theorem C5_empty_filters_unrestricted :
    ∀ (d : HadithData) (q : List Char) (L O : Nat),
      (∀ l : List SearchResult, l.filter (advFilterPred emptyAdvFilters) = l) ∧
      (advancedSearch d q emptyAdvFilters L O).hadiths =
        (((searchHadiths d q advBaseOptions).hadiths).drop O).take L ∧
      (advancedSearch d q emptyAdvFilters L O).resultsAfterFiltering =
        (searchHadiths d q advBaseOptions).hadiths.length ∧
      (∀ (g : AdvFilters) (l : List SearchResult),
        List.Sublist (l.filter (advFilterPred g)) l) := by
  intro d q L O
  have hid : ∀ l : List SearchResult, l.filter (advFilterPred emptyAdvFilters) = l := by
    intro l
    apply List.filter_eq_self.mpr
    intro a _
    rfl
  refine ⟨hid, ?_, ?_, ?_⟩
  · show (((searchHadiths d q advBaseOptions).hadiths.filter
        (advFilterPred emptyAdvFilters)).drop O).take L = _
    rw [hid]
  · show ((searchHadiths d q advBaseOptions).hadiths.filter
        (advFilterPred emptyAdvFilters)).length = _
    rw [hid]
  · intro g l
    exact List.filter_sublist _

/-! ## Claim C6 -/

/-- C6: with the corpus, query and collection/file-type filters fixed, every
record matched by a `searchHadiths` call in exact mode (whole-phrase
case-folded containment) is also matched by the same call in fuzzy mode (some
whitespace token contained): `searchCandidates` is the match set of the call,
and the exact-mode set is a subset of the fuzzy-mode set. -/
theorem C6_exact_subset_of_fuzzy :
    ∀ (d : HadithData) (q : List Char) (cid ft : Option String) (r : SearchResult),
      trimStr q ≠ [] →
      r ∈ searchCandidates d q cid ft true →
      r ∈ searchCandidates d q cid ft false := by
  intro d q cid ft r hq hr
  have hqe : (trimStr q).isEmpty = false := by
    cases htr : trimStr q with
    | nil => exact absurd htr hq
    | cons a as => rfl
  unfold searchCandidates at hr ⊢
  simp only [hqe, Bool.false_eq_true, if_false] at hr ⊢
  rcases mem_searchMatches.mp hr with ⟨c, hc, hcok, f, hf, hfok, h, hh, hmatch, rfl⟩
  apply mem_searchMatches.mpr
  refine ⟨c, hc, hcok, f, hf, hfok, h, hh, ?_, rfl⟩
  have hcontains :
      containsSub (lowerStr (trimStr q)) (lowerStr h.text) = true := hmatch
  show fuzzySearch (lowerStr h.text) (lowerStr (trimStr q)) = true
  have hnws : ∃ ch ∈ lowerStr (trimStr q), ch.isWhitespace = false :=
    lowerStr_has_nonWs (trimStr_has_nonWs hq)
  rcases splitWs_token hnws with ⟨w, hw, hwsub⟩
  unfold fuzzySearch
  rw [List.any_eq_true]
  exact ⟨w, hw, containsSub_trans hwsub hcontains⟩

/-- Helper: the exact-mode match set of `exData` for the query a. -/
theorem exact_candidates_eval :
    searchCandidates exData ['a'] none none true =
      [enrichHadith exColA exFileReg ['a'] exHadithA,
       enrichHadith exColA exFileReg ['a'] exHadithB] := rfl

/-- C6, witness: the first record of `exData`, matched exactly by the query a,
is also a fuzzy match. -/
theorem C6_exact_subset_of_fuzzy_witness :
    enrichHadith exColA exFileReg ['a'] exHadithA ∈
      searchCandidates exData ['a'] none none false :=
  C6_exact_subset_of_fuzzy exData ['a'] none none
    (enrichHadith exColA exFileReg ['a'] exHadithA)
    (by decide)
    (by rw [exact_candidates_eval]; exact List.mem_cons_self _ _)

/-! ## Claim C7 -/

/-- C7: for every corpus, query, filter setting and page size L of at least
one, concatenating the result pages of `searchHadiths` at offsets 0, L, 2L, ...
(one page per chunk of the ranked list) reproduces, in order and without
duplication or omission, the single full result list obtained with
limit = total and offset 0; that full list is sorted by non-increasing
relevance score, and for every score value its records appear in corpus
encounter order (stable ties). -/
theorem C7_pagination_completeness :
    ∀ (d : HadithData) (q : List Char) (cid ft : Option String) (ex : Bool)
      (L : Nat), 1 ≤ L →
      ((List.range
          (((sortByScore (searchCandidates d q cid ft ex)).length + L - 1) / L)).map
        (fun k => (searchHadiths d q
          { collectionId := cid, fileType := ft, limit := L, offset := k * L
            exactMatch := ex }).hadiths)).flatten =
        (searchHadiths d q
          { collectionId := cid, fileType := ft
            limit := (sortByScore (searchCandidates d q cid ft ex)).length
            offset := 0, exactMatch := ex }).hadiths ∧
      List.Sorted scoreRel
        (searchHadiths d q
          { collectionId := cid, fileType := ft
            limit := (sortByScore (searchCandidates d q cid ft ex)).length
            offset := 0, exactMatch := ex }).hadiths ∧
      (∀ s : ℚ,
        ((searchHadiths d q
          { collectionId := cid, fileType := ft
            limit := (sortByScore (searchCandidates d q cid ft ex)).length
            offset := 0, exactMatch := ex }).hadiths).filter
            (fun r => decide (r.relevanceScore = s)) =
          (searchCandidates d q cid ft ex).filter
            (fun r => decide (r.relevanceScore = s))) := by
  intro d q cid ft ex L hL
  have hfull : (searchHadiths d q
      { collectionId := cid, fileType := ft
        limit := (sortByScore (searchCandidates d q cid ft ex)).length
        offset := 0, exactMatch := ex }).hadiths =
      sortByScore (searchCandidates d q cid ft ex) := by
    show ((sortByScore (searchCandidates d q cid ft ex)).drop 0).take _ = _
    rw [List.drop_zero, List.take_length]
  refine ⟨?_, ?_, ?_⟩
  · rw [hfull]
    exact chunks_join L hL (sortByScore (searchCandidates d q cid ft ex)).length
      (sortByScore (searchCandidates d q cid ft ex)) le_rfl
  · rw [hfull]
    exact sortByScore_sorted _
  · intro s
    rw [hfull]
    exact sortByScore_filter s _

/-- C7, witness: page size one on `exData100` for the query a. -/
theorem C7_pagination_completeness_witness :
    ((List.range
        (((sortByScore (searchCandidates exData100 ['a'] none none false)).length
          + 1 - 1) / 1)).map
      (fun k => (searchHadiths exData100 ['a']
        { collectionId := none, fileType := none, limit := 1, offset := k * 1
          exactMatch := false }).hadiths)).flatten =
      (searchHadiths exData100 ['a']
        { collectionId := none, fileType := none
          limit := (sortByScore (searchCandidates exData100 ['a'] none none false)).length
          offset := 0, exactMatch := false }).hadiths :=
  (C7_pagination_completeness exData100 ['a'] none none false 1 (by norm_num)).1

/-! ## Claim C8 -/

/-- C8: for every non-empty (after trimming) query whose match set is empty,
`searchHadiths` returns normally — an empty result list, total 0 and
`hasMore = false` — whatever limit and offset are passed. -/
theorem C8_no_match_response :
    ∀ (d : HadithData) (q : List Char) (opts : SearchOptions),
      trimStr q ≠ [] →
      searchMatches d (lowerStr (trimStr q)) opts.collectionId opts.fileType
        opts.exactMatch = [] →
      searchHadiths d q opts =
        { hadiths := []
          pagination :=
            { total := 0, limit := opts.limit, offset := opts.offset
              hasMore := false } } := by
  intro d q opts hq hz
  have hqe : (trimStr q).isEmpty = false := by
    cases htr : trimStr q with
    | nil => exact absurd htr hq
    | cons a as => rfl
  unfold searchHadiths searchCandidates
  simp only [hqe, Bool.false_eq_true, if_false, hz]
  show ({ hadiths := (((sortByScore []).drop opts.offset).take opts.limit)
          pagination := { total := (sortByScore []).length, limit := opts.limit
                          offset := opts.offset
                          hasMore := decide (opts.offset + opts.limit <
                            (sortByScore []).length) } } : SearchResponse) = _
  have hnil : sortByScore [] = [] := rfl
  rw [hnil]
  simp [Nat.not_lt_zero]

/-- C8, witness: the query z matches nothing in `exData`; the response is
empty with total 0 and no further pages, at limit 5 and offset 2. -/
theorem C8_no_match_response_witness :
    searchHadiths exData ['z']
        { collectionId := none, fileType := none, limit := 5, offset := 2
          exactMatch := false } =
      { hadiths := []
        pagination := { total := 0, limit := 5, offset := 2, hasMore := false } } :=
  C8_no_match_response exData ['z']
    { collectionId := none, fileType := none, limit := 5, offset := 2
      exactMatch := false }
    (by decide) (by decide)

/-! ## Claim C9 -/

/-- C9: after a load whose collection identifiers are distinct (the data-model
invariant), the collection index built by the single pass of
`buildCollectionIndex` is exactly the identifier-keyed pairing of the whole
corpus, in corpus order — never a partial population — and `getCollection`
returns, for every collection of the corpus, that very collection value. -/
theorem C9_collection_index :
    ∀ d : HadithData,
      (d.collections.map (fun c => c.collectionId)).Nodup →
      buildCollectionIndex d = d.collections.map (fun c => (c.collectionId, c)) ∧
      ∀ C ∈ d.collections, getCollection d C.collectionId = some C := by
  intro d hnodup
  have hidx := buildCollectionIndex_eq d hnodup
  refine ⟨hidx, ?_⟩
  intro C hC
  unfold getCollection mapGet
  rw [hidx, find_map_pair d.collections hnodup C hC]
  rfl

/-- C9, witness: on the two-collection dataset the index lists both pairs and
looks either collection up exactly. -/
theorem C9_collection_index_witness :
    buildCollectionIndex exData = [("c1", exColA), ("c2", exColB)] ∧
    getCollection exData "c1" = some exColA := by
  have h := C9_collection_index exData (by decide)
  exact ⟨h.1, h.2 exColA (by decide)⟩

/-! ## Claim C10 -/

/-- C10: on every non-empty scoped length multiset the distribution handler
reports, for each ladder percentile p, the element of the ascending-sorted
length array at index p * total / 100 (with total the number of lengths, and
the index always in bounds); the sorted array is an ascending permutation of
the collected lengths. -/
theorem C10_distribution_percentiles :
    ∀ (d : HadithData) (cid ft : Option String),
      collectLengths d cid ft ≠ [] →
      distributionHandler d cid ft =
        some (distributionPercentiles (collectLengths d cid ft)) ∧
      List.Sorted (· ≤ ·) (sortAsc (collectLengths d cid ft)) ∧
      (sortAsc (collectLengths d cid ft)).Perm (collectLengths d cid ft) ∧
      ∀ p ∈ percentileLadder,
        (distributionPercentiles (collectLengths d cid ft)).lookup p =
          some ((sortAsc (collectLengths d cid ft)).getD
            (p * (collectLengths d cid ft).length / 100) 0) ∧
        p * (collectLengths d cid ft).length / 100 <
          (sortAsc (collectLengths d cid ft)).length := by
  intro d cid ft hne
  have hpos : 0 < (collectLengths d cid ft).length := List.length_pos.mpr hne
  have hlen : (sortAsc (collectLengths d cid ft)).length =
      (collectLengths d cid ft).length :=
    (List.perm_insertionSort _ _).length_eq
  refine ⟨?_, ?_, ?_, ?_⟩
  · unfold distributionHandler
    have hie : (collectLengths d cid ft).isEmpty = false := by
      cases htr : collectLengths d cid ft with
      | nil => exact absurd htr hne
      | cons a as => rfl
    simp only [hie, Bool.false_eq_true, if_false]
  · exact List.sorted_insertionSort _ _
  · exact List.perm_insertionSort _ _
  · intro p hp
    have hcases : p = 10 ∨ p = 25 ∨ p = 50 ∨ p = 75 ∨ p = 90 ∨ p = 95 ∨ p = 99 := by
      simpa [percentileLadder] using hp
    constructor
    · rcases hcases with rfl | rfl | rfl | rfl | rfl | rfl | rfl <;>
        simp [distributionPercentiles, percentileLadder, List.lookup]
    · have hp100 : p < 100 := by
        rcases hcases with rfl | rfl | rfl | rfl | rfl | rfl | rfl <;> norm_num
      rw [hlen]
      have hmul : p * (collectLengths d cid ft).length <
          100 * (collectLengths d cid ft).length :=
        Nat.mul_lt_mul_of_pos_right hp100 hpos
      exact Nat.div_lt_of_lt_mul hmul

/-- C10, witness: the unscoped distribution over `exData` is reported, and the
median entry of the ladder is the sorted array's element at the computed
index. -/
theorem C10_distribution_percentiles_witness :
    distributionHandler exData none none =
      some (distributionPercentiles (collectLengths exData none none)) ∧
    (distributionPercentiles (collectLengths exData none none)).lookup 50 =
      some ((sortAsc (collectLengths exData none none)).getD
        (50 * (collectLengths exData none none).length / 100) 0) := by
  have h := C10_distribution_percentiles exData none none (by decide)
  exact ⟨h.1, (h.2.2.2 50 (by decide)).1⟩

end OpenHadith
